import Mathlib

/-!
Verification development for the blacktest repository.

The definitions below are a shallow embedding of the numeric core of
`backend/src/utils/statistics_calculator.py` (class `StatisticsCalculator`),
`backend/src/storage/data_loader.py` (class `DataLoader`) and
`data_provider_factory.py` (class `DataProviderFactory`).

Conventions of the embedding:
* Python floats are embedded as exact rationals (`ℚ`); Python ints as `ℤ`/`ℕ`.
* Python float division raises `ZeroDivisionError` on a zero divisor; a
  computation that can hit such a division is embedded as an
  `Option`-returning function, `none` standing for the raised exception
  (see `qdiv`).  A `try/except` that swallows provider errors is embedded by
  the provider result type `Except Unit (List Bar)`.
* `variance ** 0.5` (a square root, irrational in general) is abstracted by
  an explicit function parameter `sqrtFn : ℚ → ℚ`; every theorem below is
  proved for an arbitrary `sqrtFn`, and no claim depends on its values.
* String/date plumbing that the algorithms never branch on numerically is
  reduced to its payload: trade/bar dates are natural numbers, symbols are
  natural numbers, and the case-insensitive substring tests
  `'OPEN' in offset.upper()`, `'CLOSE' in offset.upper()`,
  `'LONG' in direction.upper()` performed on each trade are carried as the
  Boolean fields `is_open`, `is_close`, `is_long` of the embedded trade.
-/

/-- `PROFIT_THRESHOLD` from `constants.py`. -/
def PROFIT_THRESHOLD : ℚ := 0.01

/-- `LOSS_THRESHOLD` from `constants.py`. -/
def LOSS_THRESHOLD : ℚ := -0.01

/-- `TRADING_DAYS_PER_YEAR` from `constants.py`. -/
def TRADING_DAYS_PER_YEAR : ℚ := 252

/-- Python float division: raises `ZeroDivisionError` (here: `none`) when the
divisor is zero, otherwise exact division. -/
def qdiv (a b : ℚ) : Option ℚ :=
  if b = 0 then none else some (a / b)

/-- One element of the `daily_results` input.  The code reads `net_pnl`
(defaulting a missing field to `0`) and a `date` string it never computes
with; only the numeric payload is carried here. -/
structure DailyResult where
  net_pnl : ℚ
deriving DecidableEq

/-- One element of the list produced by `_process_daily_results` (the `date`
string, copied verbatim from the input, is dropped). -/
structure DailyRec where
  net_pnl : ℚ
  total_pnl : ℚ
  return_ratio : ℚ
  win_loss_ratio : ℚ
  drawdown : ℚ
  max_drawdown : ℚ
deriving DecidableEq

/-- The loop state of `_process_daily_results`. -/
structure ProcState where
  cumulative_pnl : ℚ
  win_count : ℕ
  loss_count : ℕ
  max_capital : ℚ
  current_drawdown : ℚ
  max_drawdown : ℚ
deriving DecidableEq

/-- One iteration of the loop body of `_process_daily_results`: from the
running state and the day's `net_pnl` it produces the emitted record and the
next state.  `none` models the `ZeroDivisionError` Python would raise when
`max_capital` (in the drawdown branch) or `initial_capital` (in the
`return_ratio` computation) is zero. -/
def process_step (initial_capital : ℚ) (st : ProcState) (net_pnl : ℚ) :
    Option (DailyRec × ProcState) :=
  let cumulative_pnl := st.cumulative_pnl + net_pnl
  let current_capital := initial_capital + cumulative_pnl
  let dd : Option (ℚ × ℚ × ℚ) :=
    if st.max_capital < current_capital then
      some (current_capital, 0, st.max_drawdown)
    else
      match qdiv (st.max_capital - current_capital) st.max_capital with
      | none => none
      | some d => some (st.max_capital, d * 100, max st.max_drawdown (d * 100))
  match dd with
  | none => none
  | some (max_capital, current_drawdown, max_drawdown) =>
    let win_count := if PROFIT_THRESHOLD < net_pnl then st.win_count + 1 else st.win_count
    let loss_count := if net_pnl < LOSS_THRESHOLD then st.loss_count + 1 else st.loss_count
    let win_loss_ratio : ℚ :=
      if 0 < loss_count then (win_count : ℚ) / (loss_count : ℚ)
      else if 0 < win_count then (win_count : ℚ) else 0
    match qdiv cumulative_pnl initial_capital with
    | none => none
    | some rr =>
      some (⟨net_pnl, cumulative_pnl, rr * 100, win_loss_ratio, current_drawdown, max_drawdown⟩,
            ⟨cumulative_pnl, win_count, loss_count, max_capital, current_drawdown, max_drawdown⟩)

/-- The loop of `_process_daily_results`, producing the emitted records. -/
def process_go (initial_capital : ℚ) (st : ProcState) :
    List DailyResult → Option (List DailyRec)
  | [] => some []
  | r :: rest =>
    match process_step initial_capital st r.net_pnl with
    | none => none
    | some (rec, st2) =>
      match process_go initial_capital st2 rest with
      | none => none
      | some recs => some (rec :: recs)

/-- `StatisticsCalculator._process_daily_results`. -/
def process_daily_results (daily_results : List DailyResult) (initial_capital : ℚ) :
    Option (List DailyRec) :=
  process_go initial_capital ⟨0, 0, 0, initial_capital, 0, 0⟩ daily_results

/-- The `cumulative_max` list built by `_calculate_max_drawdown`: the running
maximum of the asset list, seeded with `cumulative_assets[0]`. -/
def running_max : List ℚ → ℚ → List ℚ
  | [], _ => []
  | a :: rest, current_max =>
    let m := if current_max < a then a else current_max
    m :: running_max rest m

/-- The `drawdowns` list of `_calculate_max_drawdown`:
`(asset - max_val) / max_val` for each zipped pair; `none` models the
`ZeroDivisionError` on a zero running maximum. -/
def drawdowns_of : List (ℚ × ℚ) → Option (List ℚ)
  | [] => some []
  | (a, m) :: rest =>
    match qdiv (a - m) m, drawdowns_of rest with
    | some d, some ds => some (d :: ds)
    | _, _ => none

/-- Python's `min` on a non-empty list, expressed as head plus tail. -/
def list_min (x : ℚ) (xs : List ℚ) : ℚ := xs.foldl min x

/-- Python's `max` on a non-empty list, expressed as head plus tail. -/
def list_max (x : ℚ) (xs : List ℚ) : ℚ := xs.foldl max x

/-- `StatisticsCalculator._calculate_max_drawdown`: the independent
running-maximum scan over the full equity curve.  `none` models the
`IndexError` on `cumulative_assets[0]` for empty input and any
`ZeroDivisionError` inside the scan. -/
def calculate_max_drawdown (processed_results : List DailyRec) (initial_capital : ℚ) :
    Option ℚ :=
  let cumulative_assets := processed_results.map (fun d => initial_capital + d.total_pnl)
  match cumulative_assets with
  | [] => none
  | a0 :: _ =>
    match drawdowns_of (cumulative_assets.zip (running_max cumulative_assets a0)) with
    | none => none
    | some ds =>
      match ds with
      | [] => some 0
      | d :: rest => some |list_min d rest * 100|

/-- The `daily_returns` list of `_calculate_annual_metrics`:
`(total_pnl[i] - total_pnl[i-1]) / initial_capital` for consecutive records. -/
def daily_returns_of (initial_capital : ℚ) : List DailyRec → Option (List ℚ)
  | a :: b :: rest =>
    match qdiv (b.total_pnl - a.total_pnl) initial_capital,
          daily_returns_of initial_capital (b :: rest) with
    | some r, some rs => some (r :: rs)
    | _, _ => none
  | _ => some []

/-- `StatisticsCalculator._calculate_annual_metrics`, returning
`(annual_return, annual_volatility, sharpe_ratio)`.  `sqrtFn` abstracts the
Python `** 0.5`. -/
def calculate_annual_metrics (sqrtFn : ℚ → ℚ) (processed_results : List DailyRec)
    (initial_capital : ℚ) : Option (ℚ × ℚ × ℚ) :=
  match daily_returns_of initial_capital processed_results with
  | none => none
  | some daily_returns =>
    match daily_returns with
    | [] => some (0, 0, 0)
    | r :: rs =>
      let n : ℚ := ((r :: rs).length : ℚ)
      let avg_daily_return := (r :: rs).sum / n
      let variance := ((r :: rs).map (fun x => (x - avg_daily_return) ^ 2)).sum / n
      let std_daily_return := sqrtFn variance
      let annual_return := avg_daily_return * TRADING_DAYS_PER_YEAR * 100
      let annual_volatility := std_daily_return * sqrtFn TRADING_DAYS_PER_YEAR * 100
      let sharpe_ratio :=
        if 0 < std_daily_return then
          (avg_daily_return * TRADING_DAYS_PER_YEAR) /
            (std_daily_return * sqrtFn TRADING_DAYS_PER_YEAR)
        else 0
      some (annual_return, annual_volatility, sharpe_ratio)

/-- Trade direction as recorded on an open leg (`'LONG' if is_long else 'SHORT'`). -/
inductive Direction where
  | LONG
  | SHORT
deriving DecidableEq

/-- One raw trade record as consumed by `_calculate_trade_statistics`.
`dt` is the sort key (`trade_datetime`), `symbol` the instrument (never read
by the pairing code), and `is_open`, `is_close`, `is_long` are the outcomes
of the case-insensitive substring tests on the `offset` and `direction`
strings (the code also computes `is_short` but never reads it). -/
structure Trade where
  dt : ℕ
  symbol : ℕ
  is_open : Bool
  is_close : Bool
  is_long : Bool
  price : ℚ
  volume : ℤ
deriving DecidableEq

/-- An entry of `position_stack` (direction, price, volume of an open leg). -/
structure OpenLeg where
  direction : Direction
  price : ℚ
  volume : ℤ
deriving DecidableEq

/-- One element of `completed_trades`. -/
structure TradePair where
  open_price : ℚ
  close_price : ℚ
  direction : Direction
  volume : ℤ
  pnl : ℚ
deriving DecidableEq

/-- The two PnL formulas of the pairing loop, keyed on the direction stored
on the popped open leg. -/
def leg_pnl (d : Direction) (open_price close_price : ℚ) (matched_volume : ℤ) : ℚ :=
  match d with
  | .LONG => (close_price - open_price) * (matched_volume : ℚ)
  | .SHORT => (open_price - close_price) * (matched_volume : ℚ)

/-- The loop state of the pairing pass inside `_calculate_trade_statistics`.
`position_stack` is the Python list used as a stack: Python appends and pops
at the END of the list; here the stack is kept most-recent-first, so a push
is `::` and `pop()` takes the head. -/
structure PairState where
  position_stack : List OpenLeg
  completed_trades : List TradePair
deriving DecidableEq

/-- One iteration of the pairing loop of `_calculate_trade_statistics`:
an OPEN trade pushes a leg; a CLOSE trade with a non-empty stack pops the
most recent leg (`position_stack.pop()`), emits a pair with
`min(volume, open_position['volume'])` matched volume and direction-keyed
PnL, and pushes nothing back; any other trade is ignored.  The trade's
`symbol` is never consulted. -/
def process_trade (st : PairState) (t : Trade) : PairState :=
  if t.is_open then
    { st with position_stack :=
        ⟨if t.is_long then .LONG else .SHORT, t.price, t.volume⟩ :: st.position_stack }
  else if t.is_close then
    match st.position_stack with
    | [] => st
    | open_position :: rest =>
      let matched_volume := min t.volume open_position.volume
      { position_stack := rest,
        completed_trades := st.completed_trades ++
          [⟨open_position.price, t.price, open_position.direction, matched_volume,
            leg_pnl open_position.direction open_position.price t.price matched_volume⟩] }
  else st

/-- The full pairing pass over the (time-sorted) trade list. -/
def pair_trades (sorted_trades : List Trade) : PairState :=
  sorted_trades.foldl process_trade ⟨[], []⟩

/-- The dictionary returned by `_calculate_trade_statistics`. -/
structure TradeStats where
  total_trades : ℕ
  win_rate : ℚ
  profit_factor : ℚ
  max_profit : ℚ
  max_loss : ℚ
deriving DecidableEq

/-- `StatisticsCalculator._calculate_trade_statistics`.  Its argument is the
already time-sorted trade list (`sorted_trades` in the code; the preceding
stable sort by `trade_datetime` is the identity on sorted input, which is
what every claim quantifies over). -/
def calculate_trade_statistics (sorted_trades : List Trade) : TradeStats :=
  match sorted_trades with
  | [] => ⟨0, 0, 0, 0, 0⟩
  | _ :: _ =>
    let total_trades := sorted_trades.length
    match (pair_trades sorted_trades).completed_trades with
    | [] => ⟨total_trades, 0, 0, 0, 0⟩
    | c :: cs =>
      let trade_pnls := (c :: cs).map (fun p => p.pnl)
      let winning_trades := (trade_pnls.filter (fun p => decide (0 < p))).length
      let win_rate := (winning_trades : ℚ) / ((c :: cs).length : ℚ) * 100
      let total_profit := (trade_pnls.filter (fun p => decide (0 < p))).sum
      let total_loss := |(trade_pnls.filter (fun p => decide (p < 0))).sum|
      let profit_factor := if 0 < total_loss then total_profit / total_loss else 0
      let max_profit := list_max c.pnl (cs.map (fun p => p.pnl))
      let max_loss := list_min c.pnl (cs.map (fun p => p.pnl))
      ⟨total_trades, win_rate, profit_factor, max_profit, max_loss⟩

/-- The dictionary returned by `calculate_backtest_statistics`. -/
structure Stats where
  total_return : ℚ
  annual_return : ℚ
  max_drawdown : ℚ
  sharpe_ratio : ℚ
  profit_factor : ℚ
  win_rate : ℚ
  total_trades : ℕ
  total_pnl : ℚ
  max_profit : ℚ
  max_loss : ℚ
  final_win_loss_ratio : ℚ
  annual_volatility : ℚ
deriving DecidableEq

/-- `StatisticsCalculator._get_default_stats`. -/
def get_default_stats : Stats :=
  ⟨0, 0, 0, 0, 0, 0, 0, 0, 0, 0, 0, 0⟩

/-- `StatisticsCalculator.calculate_backtest_statistics`.  `none` models an
uncaught exception escaping the call. -/
def calculate_backtest_statistics (sqrtFn : ℚ → ℚ) (daily_results : List DailyResult)
    (trades : List Trade) (initial_capital : ℚ) : Option Stats :=
  match daily_results with
  | [] => some get_default_stats
  | _ :: _ =>
    match process_daily_results daily_results initial_capital with
    | none => none
    | some processed_results =>
      match processed_results.getLast? with
      | none => none
      | some last_rec =>
        match calculate_max_drawdown processed_results initial_capital with
        | none => none
        | some max_drawdown =>
          match calculate_annual_metrics sqrtFn processed_results initial_capital with
          | none => none
          | some (annual_return, annual_volatility, sharpe_ratio) =>
            let trade_stats := calculate_trade_statistics trades
            some ⟨last_rec.return_ratio, annual_return, max_drawdown, sharpe_ratio,
                  trade_stats.profit_factor, trade_stats.win_rate, trade_stats.total_trades,
                  last_rec.total_pnl, trade_stats.max_profit, trade_stats.max_loss,
                  last_rec.win_loss_ratio, annual_volatility⟩

/-- One OHLCV bar as fetched from a provider (`BarData` payload relevant to
the cache: the trade date and the numeric fields written by
`_save_to_cache`). -/
structure Bar where
  trade_date : ℕ
  open_price : ℚ
  high_price : ℚ
  low_price : ℚ
  close_price : ℚ
  volume : ℤ
  turnover : ℚ
deriving DecidableEq

/-- One initialized data provider together with its configuration, as the
factory sees it: `enabled` stands for `config and config.enabled`,
`priority` for `config.priority`, `supported_symbols` for the key set of
`get_supported_symbols()` (so `is_symbol_supported` is membership), and
`fetch_result` for the behaviour of `get_historical_data` on the requested
range — `Except.error ()` models a raised exception, `Except.ok []` models
an empty (or `None`) result. -/
structure Provider where
  priority : ℤ
  enabled : Bool
  supported_symbols : List ℕ
  fetch_result : Except Unit (List Bar)

/-- `BaseDataProvider.is_symbol_supported`: membership of the symbol in the
provider's supported-symbol map. -/
def is_symbol_supported (p : Provider) (symbol : ℕ) : Bool :=
  symbol ∈ p.supported_symbols

/-- Stable insertion of a provider into an already priority-sorted list:
the new entry goes after every entry whose priority is `≤` its own.  Used to
embed Python's stable `list.sort(key=lambda x: x[2])`. -/
def insert_by_priority (a : Provider) : List Provider → List Provider
  | [] => [a]
  | b :: l => if b.priority ≤ a.priority then b :: insert_by_priority a l else a :: b :: l

/-- Stable ascending sort by `priority` (left-to-right insertion, equal keys
keep their original order), embedding `enabled_sources.sort(key=...)`. -/
def sort_by_priority (l : List Provider) : List Provider :=
  l.foldl (fun acc a => insert_by_priority a acc) []

/-- `DataProviderFactory.get_providers_by_priority`: keep the enabled
providers and sort them by ascending priority number. -/
def get_providers_by_priority (providers : List Provider) : List Provider :=
  sort_by_priority (providers.filter (fun p => p.enabled))

/-- The accumulation loop of `find_providers_for_symbol` over the
priority-ordered list: keep exactly the providers supporting the symbol, in
order. -/
def supporting_go (symbol : ℕ) : List Provider → List Provider
  | [] => []
  | p :: rest =>
    if is_symbol_supported p symbol then p :: supporting_go symbol rest
    else supporting_go symbol rest

/-- `DataProviderFactory.find_providers_for_symbol`. -/
def find_providers_for_symbol (providers : List Provider) (symbol : ℕ) : List Provider :=
  supporting_go symbol (get_providers_by_priority providers)

/-- The provider loop of `DataLoader._get_remote_data_multi_source`: try each
provider in order; a raised exception (`.error`) is caught and the next
provider is tried; an empty result falls through to the next provider; the
first non-empty result is returned; exhaustion returns `None`. -/
def fetch_loop : List Provider → Option (List Bar)
  | [] => none
  | p :: rest =>
    match p.fetch_result with
    | .error _ => fetch_loop rest
    | .ok data => if data.isEmpty then fetch_loop rest else some data

/-- `DataLoader._get_remote_data_multi_source` (the fetch decision; the
cache write on success is modelled separately by `save_to_cache`):
`find_providers_for_symbol` followed by the provider loop.  An empty
candidate list returns `None` at once, which coincides with the exhausted
loop. -/
def get_remote_data_multi_source (providers : List Provider) (symbol : ℕ) :
    Option (List Bar) :=
  fetch_loop (find_providers_for_symbol providers symbol)

/-- The range-coalescing loop of `DataLoader._get_missing_dates` (lines
233-250).  Dates are calendar-day numbers, so `(current - prev).days` is
plain subtraction.  `range_start`/`range_end` carry the range being built
and `prev` the previous missing date (`missing_dates[i-1]`). -/
def coalesce_go (range_start range_end prev : ℤ) : List ℤ → List (ℤ × ℤ)
  | [] => [(range_start, range_end)]
  | m :: rest =>
    if m - prev ≤ 7 then coalesce_go range_start m m rest
    else (range_start, range_end) :: coalesce_go m m m rest

/-- The missing-date → ranges part of `DataLoader._get_missing_dates`: an
empty missing list yields `[]`, otherwise the linear left-to-right
coalescing scan seeded with the first missing date. -/
def merge_missing_dates (missing_dates : List ℤ) : List (ℤ × ℤ) :=
  match missing_dates with
  | [] => []
  | m :: rest => coalesce_go m m m rest

/-- Specification-side grouping (from the claim's words): successive missing
dates at most 7 days apart belong to one group, a larger gap starts a new
group. -/
def chunks_go (cur : List ℤ) (prev : ℤ) : List ℤ → List (List ℤ)
  | [] => [cur]
  | m :: rest =>
    if m - prev ≤ 7 then chunks_go (cur ++ [m]) m rest
    else cur :: chunks_go [m] m rest

/-- Specification-side: split the sorted missing-date list into maximal runs
of successively-close (gap `≤ 7`, inclusive) dates. -/
def gap_chunks : List ℤ → List (List ℤ)
  | [] => []
  | m :: rest => chunks_go [m] m rest

/-- Specification-side: the range spanned by one chunk (first to last date). -/
def chunk_range (c : List ℤ) : ℤ × ℤ := (c.headD 0, c.getLastD 0)

/-- The uniqueness key of the `market_data` table:
`UNIQUE(symbol, data_type, data_source, trade_date)`. -/
structure RowKey where
  symbol : ℕ
  data_type : ℕ
  data_source : ℕ
  trade_date : ℕ
deriving DecidableEq

/-- One row of the `market_data` table (key plus the price/volume payload
written by `_save_to_cache`). -/
structure Row where
  key : RowKey
  open_price : ℚ
  high_price : ℚ
  low_price : ℚ
  close_price : ℚ
  volume : ℤ
  turnover : ℚ
deriving DecidableEq

/-- SQLite `INSERT OR REPLACE` under the table's UNIQUE key: any row with a
conflicting key is deleted and the new row inserted. -/
def insert_or_replace (table : List Row) (r : Row) : List Row :=
  (table.filter (fun row => decide (row.key ≠ r.key))) ++ [r]

/-- Writing a list of rows in order, each with `INSERT OR REPLACE`. -/
def write_all (table : List Row) (rows : List Row) : List Row :=
  rows.foldl insert_or_replace table

/-- The row `_save_to_cache` builds for one bar. -/
def mk_row (symbol data_type data_source : ℕ) (bar : Bar) : Row :=
  ⟨⟨symbol, data_type, data_source, bar.trade_date⟩, bar.open_price, bar.high_price,
   bar.low_price, bar.close_price, bar.volume, bar.turnover⟩

/-- `DataLoader._save_to_cache`: one `INSERT OR REPLACE` per bar, keyed by
`(symbol, data_type, data_source, trade_date)`.  (`if not bars: return` is
the empty fold.) -/
def save_to_cache (table : List Row) (symbol data_type data_source : ℕ)
    (bars : List Bar) : List Row :=
  write_all table (bars.map (mk_row symbol data_type data_source))

/-- Helper for C4: a fold of `process_trade` over trades none of which is an
OPEN leaves the state unchanged when the stack is empty. -/
theorem pair_fold_no_open :
    ∀ (trades : List Trade) (st : PairState),
      (∀ t ∈ trades, t.is_open = false) → st.position_stack = [] →
      trades.foldl process_trade st = st := by
  intro trades
  induction trades with
  | nil => intro st _ _; rfl
  | cons t ts ih =>
    intro st hall hs
    have hstep : process_trade st t = st := by
      simp [process_trade, hall t (List.mem_cons_self t ts), hs]
    rw [List.foldl_cons, hstep]
    exact ih st (fun u hu => hall u (List.mem_cons_of_mem t hu)) hs

/-- C10: with an empty daily-results list, `calculate_backtest_statistics`
returns the fixed all-zero statistics object for every trades argument and
every initial capital; the trades are never examined and pairing never runs. -/
theorem claim_C10_default_stats :
    ∀ (sqrtFn : ℚ → ℚ) (trades : List Trade) (initial_capital : ℚ),
      calculate_backtest_statistics sqrtFn [] trades initial_capital
          = some get_default_stats ∧
        get_default_stats = ⟨0, 0, 0, 0, 0, 0, 0, 0, 0, 0, 0, 0⟩ :=
  fun _ _ _ => ⟨rfl, rfl⟩

/-- C5: the code performs no precondition check on `initial_capital`.  At the
failing input `initial_capital = -1000`, one daily result with
`net_pnl = 100` and no trades, the call returns a statistics object (with a
sign-inverted `total_return` of `-10`%) instead of raising, for every square
root realization.  This contradicts the spec's PreconditionViolation
requirement (`initial_capital <= 0` should raise). -/
theorem claim_C5_no_precondition_check :
    ∀ sqrtFn : ℚ → ℚ,
      calculate_backtest_statistics sqrtFn [⟨100⟩] [] (-1000)
        = some ⟨-10, 0, 0, 0, 0, 0, 0, 100, 0, 0, 1, 0⟩ := by
  intro f
  norm_num [calculate_backtest_statistics, process_daily_results, process_go, process_step,
    qdiv, PROFIT_THRESHOLD, LOSS_THRESHOLD, calculate_max_drawdown, running_max,
    drawdowns_of, list_min, daily_returns_of, calculate_annual_metrics,
    calculate_trade_statistics]

/-- C1 counterexample: with the timestamp-sorted single-instrument trades
`[OPEN LONG @100 x1, OPEN LONG @200 x1, CLOSE @110 x1]`, the CLOSE is paired
with the open leg at price `200` — the most recently pushed one — not with
the oldest open leg at price `100` as the FIFO claim states. -/
theorem claim_C1_counterexample :
    (pair_trades [⟨0, 0, true, false, true, 100, 1⟩, ⟨1, 0, true, false, true, 200, 1⟩,
        ⟨2, 0, false, true, true, 110, 1⟩]).completed_trades
      = [⟨200, 110, .LONG, 1, -90⟩] ∧ (200 : ℚ) ≠ 100 := by
  constructor
  · norm_num [pair_trades, process_trade, leg_pnl]
  · norm_num

/-- C1 (amended): on a CLOSE trade with a non-empty stack the pairing engine
pops the MOST RECENTLY pushed open leg (last-in-first-out, the head of the
stack in this embedding), leaving the older legs untouched, and the single
stack is shared across instruments — the trade's symbol plays no role. -/
theorem claim_C1_lifo_pairing :
    (∀ (st : PairState) (t : Trade) (e : OpenLeg) (rest : List OpenLeg),
      t.is_open = false → t.is_close = true → st.position_stack = e :: rest →
      (process_trade st t).position_stack = rest ∧
        (process_trade st t).completed_trades.map (fun p => p.open_price)
          = st.completed_trades.map (fun p => p.open_price) ++ [e.price]) ∧
    (∀ (st : PairState) (t : Trade) (s : ℕ),
      process_trade st { t with symbol := s } = process_trade st t) := by
  constructor
  · intro st t e rest ho hc hs
    simp [process_trade, ho, hc, hs]
  · intro st t s
    simp [process_trade]

/-- Witness for C1: a concrete CLOSE against the one-element stack
`[⟨LONG, 100, 1⟩]` pops that leg and emits a pair opened at `100`. -/
theorem claim_C1_witness :
    (process_trade ⟨[⟨.LONG, 100, 1⟩], []⟩ ⟨2, 0, false, true, true, 110, 1⟩).position_stack
        = [] ∧
      (process_trade ⟨[⟨.LONG, 100, 1⟩], []⟩
            ⟨2, 0, false, true, true, 110, 1⟩).completed_trades.map (fun p => p.open_price)
        = [] ++ [100] :=
  claim_C1_lifo_pairing.1 ⟨[⟨.LONG, 100, 1⟩], []⟩ ⟨2, 0, false, true, true, 110, 1⟩
    ⟨.LONG, 100, 1⟩ [] rfl rfl rfl

/-- C3: a CLOSE matched against an open leg emits exactly one pair whose
matched volume is `min(close.volume, open.volume)` and whose PnL is
`(close.price − open.price) × matched_volume` for a LONG leg and
`(open.price − close.price) × matched_volume` for a SHORT leg; the popped
leg is fully consumed — the new stack is exactly the remaining legs, with no
remainder re-pushed even when the volumes differ. -/
theorem claim_C3_pair_contents :
    (∀ (st : PairState) (t : Trade) (e : OpenLeg) (rest : List OpenLeg),
      t.is_open = false → t.is_close = true → st.position_stack = e :: rest →
      (process_trade st t).completed_trades
          = st.completed_trades ++
            [⟨e.price, t.price, e.direction, min t.volume e.volume,
              leg_pnl e.direction e.price t.price (min t.volume e.volume)⟩] ∧
        (process_trade st t).position_stack = rest) ∧
    (∀ (open_price close_price : ℚ) (mv : ℤ),
      leg_pnl .LONG open_price close_price mv = (close_price - open_price) * (mv : ℚ)) ∧
    (∀ (open_price close_price : ℚ) (mv : ℤ),
      leg_pnl .SHORT open_price close_price mv = (open_price - close_price) * (mv : ℚ)) := by
  refine ⟨?_, fun _ _ _ => rfl, fun _ _ _ => rfl⟩
  intro st t e rest ho hc hs
  simp [process_trade, ho, hc, hs]

/-- Witness for C3: a CLOSE of volume 4 against an open LONG leg of volume
10 at price 100 emits one pair of matched volume `min 4 10` and PnL
`leg_pnl LONG 100 110 (min 4 10)`, and consumes the leg entirely. -/
theorem claim_C3_witness :
    (process_trade ⟨[⟨.LONG, 100, 10⟩], []⟩ ⟨9, 0, false, true, true, 110, 4⟩).completed_trades
        = [] ++ [⟨100, 110, .LONG, min 4 10, leg_pnl .LONG 100 110 (min 4 10)⟩] ∧
      (process_trade ⟨[⟨.LONG, 100, 10⟩], []⟩ ⟨9, 0, false, true, true, 110, 4⟩).position_stack
        = [] :=
  claim_C3_pair_contents.1 ⟨[⟨.LONG, 100, 10⟩], []⟩ ⟨9, 0, false, true, true, 110, 4⟩
    ⟨.LONG, 100, 10⟩ [] rfl rfl rfl

/-- C4 counterexample: (i) the stack is NOT keyed by instrument — a CLOSE on
symbol 1 whose own instrument has no prior OPEN is nevertheless paired with
the pending OPEN of symbol 0; (ii) a list consisting of one unmatched CLOSE
yields trade statistics with `total_trades = 1`, not the all-zero
statistics. -/
theorem claim_C4_counterexample :
    (pair_trades [⟨0, 0, true, false, true, 100, 1⟩,
        ⟨1, 1, false, true, true, 110, 1⟩]).completed_trades ≠ [] ∧
      (calculate_trade_statistics [⟨0, 5, false, true, true, 110, 1⟩]).total_trades = 1 := by
  constructor
  · simp [pair_trades, process_trade]
  · rfl

/-- C4 (amended): a CLOSE arriving when the (single, instrument-blind) stack
is empty is skipped — no pair, no state change, no error; consequently a
trade list with no OPEN trades at all produces zero pairs and statistics
with `win_rate`, `profit_factor`, `max_profit`, `max_loss` all zero and
`total_trades` equal to the number of raw trade records. -/
theorem claim_C4_unmatched_close :
    (∀ (st : PairState) (t : Trade), t.is_open = false → st.position_stack = [] →
      process_trade st t = st) ∧
    (∀ trades : List Trade, (∀ t ∈ trades, t.is_open = false) →
      (pair_trades trades).completed_trades = [] ∧
        calculate_trade_statistics trades = ⟨trades.length, 0, 0, 0, 0⟩) := by
  constructor
  · intro st t ho hs
    simp [process_trade, ho, hs]
  · intro trades hall
    have hfold : pair_trades trades = ⟨[], []⟩ :=
      pair_fold_no_open trades ⟨[], []⟩ hall rfl
    refine ⟨by rw [hfold], ?_⟩
    match trades with
    | [] => rfl
    | t :: ts =>
      simp [calculate_trade_statistics, hfold]

/-- Witness for C4: one lone CLOSE trade is dropped without a pair and the
statistics report `total_trades = 1` with all other fields zero. -/
theorem claim_C4_witness :
    (pair_trades [⟨3, 7, false, true, false, 55, 2⟩]).completed_trades = [] ∧
      calculate_trade_statistics [⟨3, 7, false, true, false, 55, 2⟩] = ⟨1, 0, 0, 0, 0⟩ :=
  claim_C4_unmatched_close.2 [⟨3, 7, false, true, false, 55, 2⟩] (by simp)

/-- C6: one provider raising (`.error`) or returning empty data does not
abort the fetch loop — the next provider is tried; the loop returns the data
of the first provider in order whose result is non-empty; and when every
provider fails or returns empty the loop returns `none` instead of
propagating an exception. -/
theorem claim_C6_fault_isolation :
    (∀ (p : Provider) (rest : List Provider),
      (p.fetch_result = .error () ∨ p.fetch_result = .ok []) →
      fetch_loop (p :: rest) = fetch_loop rest) ∧
    (∀ (p : Provider) (rest : List Provider) (data : List Bar),
      p.fetch_result = .ok data → data ≠ [] → fetch_loop (p :: rest) = some data) ∧
    (∀ ps : List Provider,
      (∀ p ∈ ps, p.fetch_result = .error () ∨ p.fetch_result = .ok []) →
      fetch_loop ps = none) := by
  refine ⟨?_, ?_, ?_⟩
  · intro p rest h
    rcases h with h | h <;> simp [fetch_loop, h]
  · intro p rest data h hne
    simp [fetch_loop, h, hne]
  · intro ps
    induction ps with
    | nil => intro _; rfl
    | cons p rest ih =>
      intro hall
      rcases hall p (List.mem_cons_self p rest) with h | h <;>
        simp [fetch_loop, h, ih (fun q hq => hall q (List.mem_cons_of_mem p hq))]

/-- Witness for C6: a raising provider followed by an empty-result provider
yields `none`. -/
theorem claim_C6_witness :
    fetch_loop [⟨1, true, [], Except.error ()⟩, ⟨2, true, [], Except.ok []⟩] = none :=
  claim_C6_fault_isolation.2.2
    [⟨1, true, [], Except.error ()⟩, ⟨2, true, [], Except.ok []⟩] (by simp)

/-- Membership after stable insertion: an element of the result is the
inserted provider or an element of the original list. -/
theorem mem_insert_by_priority {x a : Provider} :
    ∀ {l : List Provider}, x ∈ insert_by_priority a l → x = a ∨ x ∈ l := by
  intro l
  induction l with
  | nil => simp [insert_by_priority]
  | cons b l ih =>
    by_cases hba : b.priority ≤ a.priority
    · simp only [insert_by_priority, if_pos hba]
      intro hx
      rcases List.mem_cons.mp hx with h | h
      · exact Or.inr (List.mem_cons.mpr (Or.inl h))
      · rcases ih h with h1 | h1
        · exact Or.inl h1
        · exact Or.inr (List.mem_cons.mpr (Or.inr h1))
    · simp only [insert_by_priority, if_neg hba]
      intro hx
      rcases List.mem_cons.mp hx with h | h
      · exact Or.inl h
      · exact Or.inr h

/-- Stable insertion preserves ascending-priority sortedness. -/
theorem sorted_insert_by_priority {a : Provider} :
    ∀ {l : List Provider}, l.Pairwise (fun x y => x.priority ≤ y.priority) →
      (insert_by_priority a l).Pairwise (fun x y => x.priority ≤ y.priority) := by
  intro l
  induction l with
  | nil => intro _; simp [insert_by_priority]
  | cons b l ih =>
    intro h
    rcases List.pairwise_cons.mp h with ⟨hb, hl⟩
    by_cases hba : b.priority ≤ a.priority
    · rw [insert_by_priority, if_pos hba]
      refine List.pairwise_cons.mpr ⟨?_, ih hl⟩
      intro x hx
      rcases mem_insert_by_priority hx with rfl | hxl
      · exact hba
      · exact hb x hxl
    · rw [insert_by_priority, if_neg hba]
      refine List.pairwise_cons.mpr ⟨?_, h⟩
      intro x hx
      rcases List.mem_cons.mp hx with rfl | hxl
      · exact le_of_lt (lt_of_not_le hba)
      · exact le_trans (le_of_lt (lt_of_not_le hba)) (hb x hxl)

/-- The insertion fold keeps the accumulator sorted by ascending priority. -/
theorem sorted_sort_fold :
    ∀ (l acc : List Provider), acc.Pairwise (fun x y => x.priority ≤ y.priority) →
      (l.foldl (fun acc a => insert_by_priority a acc) acc).Pairwise
        (fun x y => x.priority ≤ y.priority) := by
  intro l
  induction l with
  | nil => intro acc h; exact h
  | cons a l ih =>
    intro acc h
    exact ih (insert_by_priority a acc) (sorted_insert_by_priority h)

/-- The filtering loop of `find_providers_for_symbol` is `List.filter`. -/
theorem supporting_go_eq_filter (symbol : ℕ) :
    ∀ l : List Provider,
      supporting_go symbol l = l.filter (fun p => is_symbol_supported p symbol) := by
  intro l
  induction l with
  | nil => rfl
  | cons p rest ih =>
    by_cases hp : is_symbol_supported p symbol
    · simp [supporting_go, ih, List.filter_cons, hp]
    · simp [supporting_go, ih, List.filter_cons, hp]

/-- C7: the candidate list for a symbol is the enabled providers sorted by
ascending priority number and then restricted to those supporting the
symbol; the resulting list is ascending in priority (so providers are tried
smallest-priority first), and a provider that does not support the symbol is
omitted from the candidate list entirely. -/
theorem claim_C7_priority_and_support :
    (∀ (providers : List Provider) (symbol : ℕ),
      find_providers_for_symbol providers symbol
        = (get_providers_by_priority providers).filter
            (fun p => is_symbol_supported p symbol)) ∧
    (∀ (providers : List Provider) (symbol : ℕ),
      (find_providers_for_symbol providers symbol).Pairwise
        (fun x y => x.priority ≤ y.priority)) ∧
    (∀ (providers : List Provider) (symbol : ℕ) (p : Provider),
      is_symbol_supported p symbol = false →
      p ∉ find_providers_for_symbol providers symbol) := by
  have heq : ∀ (providers : List Provider) (symbol : ℕ),
      find_providers_for_symbol providers symbol
        = (get_providers_by_priority providers).filter
            (fun p => is_symbol_supported p symbol) := by
    intro providers symbol
    exact supporting_go_eq_filter symbol (get_providers_by_priority providers)
  refine ⟨heq, ?_, ?_⟩
  · intro providers symbol
    rw [heq]
    exact (sorted_sort_fold _ [] (by simp)).filter _
  · intro providers symbol p hp hmem
    rw [heq] at hmem
    have := List.of_mem_filter hmem
    rw [hp] at this
    exact Bool.false_ne_true this

/-- Witness for C7: a provider supporting no symbols is absent from the
candidate list built from it. -/
theorem claim_C7_witness :
    (⟨3, true, [], Except.ok []⟩ : Provider) ∉
      find_providers_for_symbol [⟨3, true, [], Except.ok []⟩] 0 :=
  claim_C7_priority_and_support.2.2 [⟨3, true, [], Except.ok []⟩] 0
    ⟨3, true, [], Except.ok []⟩ (by simp [is_symbol_supported])

/-- The coalescing loop builds exactly the ranges spanned by the gap-chunks:
invariant linking the accumulator `(range_start, range_end)` to the chunk
being grown. -/
theorem coalesce_go_eq_chunks :
    ∀ (rest cur : List ℤ) (rs re prev : ℤ), cur ≠ [] →
      cur.headD 0 = rs → cur.getLastD 0 = re →
      coalesce_go rs re prev rest = (chunks_go cur prev rest).map chunk_range := by
  intro rest
  induction rest with
  | nil =>
    intro cur rs re prev hne hh hl
    simp only [coalesce_go, chunks_go, List.map_cons, List.map_nil, chunk_range, hh, hl]
  | cons m rest ih =>
    intro cur rs re prev hne hh hl
    obtain ⟨c, cs, rfl⟩ := List.exists_cons_of_ne_nil hne
    by_cases hgap : m - prev ≤ 7
    · rw [coalesce_go, if_pos hgap, chunks_go, if_pos hgap]
      refine ih ((c :: cs) ++ [m]) rs m m (by simp) ?_ ?_
      · rw [List.cons_append]
        exact hh
      · rw [List.cons_append, ← List.cons_append]
        exact List.getLastD_concat _ _ _
    · rw [coalesce_go, if_neg hgap, chunks_go, if_neg hgap, List.map_cons]
      have hcr : chunk_range (c :: cs) = (rs, re) := by
        rw [chunk_range, hh, hl]
      rw [hcr]
      rw [ih [m] m m m (by simp) rfl rfl]

/-- C8: the missing-date merge is exactly the left-to-right grouping of the
sorted missing dates into runs of successively-close dates — two successive
missing dates land in the same range precisely when they are at most 7
calendar days apart, with the boundary case of exactly 7 days still merged
(inclusive comparison); a single missing date yields one degenerate range,
and no missing dates yield the empty list. -/
theorem claim_C8_gap_coalescing :
    (∀ missing : List ℤ,
      merge_missing_dates missing = (gap_chunks missing).map chunk_range) ∧
    (∀ d : ℤ, merge_missing_dates [d] = [(d, d)]) ∧
    merge_missing_dates [] = [] ∧
    (∀ a b : ℤ, b - a ≤ 7 → merge_missing_dates [a, b] = [(a, b)]) ∧
    (∀ a b : ℤ, 7 < b - a → merge_missing_dates [a, b] = [(a, a), (b, b)]) := by
  refine ⟨?_, fun d => rfl, rfl, ?_, ?_⟩
  · intro missing
    match missing with
    | [] => rfl
    | m :: rest =>
      rw [merge_missing_dates, gap_chunks]
      exact coalesce_go_eq_chunks rest [m] m m m (by simp) rfl rfl
  · intro a b h
    simp [merge_missing_dates, coalesce_go, h]
  · intro a b h
    simp [merge_missing_dates, coalesce_go, not_le.mpr h]

/-- Witness for C8: missing dates exactly 7 days apart are merged into one
range, and dates 8 days apart are split. -/
theorem claim_C8_witness :
    merge_missing_dates [0, 7] = [(0, 7)] ∧ merge_missing_dates [0, 8] = [(0, 0), (8, 8)] :=
  ⟨claim_C8_gap_coalescing.2.2.2.1 0 7 (by norm_num),
   claim_C8_gap_coalescing.2.2.2.2 0 8 (by norm_num)⟩

/-- `true` iff the row's key collides with none of the given rows. -/
def no_key_in (rows : List Row) (row : Row) : Bool :=
  rows.all (fun b => decide (row.key ≠ b.key))

/-- Canonical form of a batch of `INSERT OR REPLACE` writes: the rows of the
original table whose keys are untouched by the batch, followed by the batch
itself written into an empty table. -/
theorem write_all_canonical :
    ∀ (rows : List Row) (table : List Row),
      write_all table rows = table.filter (no_key_in rows) ++ write_all [] rows := by
  intro rows
  induction rows with
  | nil =>
    intro table
    have h1 : table.filter (no_key_in []) = table :=
      List.filter_eq_self.mpr (fun a _ => rfl)
    simp [write_all, h1]
  | cons r rows ih =>
    intro table
    have hstep : write_all table (r :: rows) = write_all (insert_or_replace table r) rows := rfl
    have hzero : write_all [] (r :: rows) = write_all [r] rows := by
      simp [write_all, insert_or_replace]
    rw [hstep, ih (insert_or_replace table r), hzero, ih [r], insert_or_replace,
      List.filter_append, List.filter_filter, List.append_assoc]
    have hpred : ∀ row : Row,
        (no_key_in rows row && decide (row.key ≠ r.key))
          = no_key_in (r :: rows) row := by
      intro row
      simp [no_key_in, Bool.and_comm]
    congr 1
    exact List.filter_congr (fun row _ => hpred row)

/-- Every row of a batch written into an empty table carries a key from the
batch (more generally, a row of `write_all table rows` comes from `table` or
shares a key with a batch row). -/
theorem mem_write_all_key :
    ∀ (rows table : List Row) (row : Row), row ∈ write_all table rows →
      row ∈ table ∨ ∃ b ∈ rows, row.key = b.key := by
  intro rows
  induction rows with
  | nil =>
    intro table row h
    exact Or.inl h
  | cons r rows ih =>
    intro table row h
    have hstep : write_all table (r :: rows) = write_all (insert_or_replace table r) rows := rfl
    rw [hstep] at h
    rcases ih (insert_or_replace table r) row h with hmem | ⟨b, hb, hk⟩
    · rw [insert_or_replace] at hmem
      rcases List.mem_append.mp hmem with hf | hr
      · exact Or.inl (List.mem_of_mem_filter hf)
      · have hrr : row = r := List.mem_singleton.mp hr
        exact Or.inr ⟨r, List.mem_cons_self r rows, by rw [hrr]⟩
    · exact Or.inr ⟨b, List.mem_cons_of_mem r hb, hk⟩

/-- Re-filtering a batch's own output by "key untouched by the batch"
removes everything. -/
theorem filter_write_all_self (rows : List Row) :
    (write_all [] rows).filter (no_key_in rows) = [] := by
  rw [List.filter_eq_nil_iff]
  intro row hrow
  rcases mem_write_all_key rows [] row hrow with h | ⟨b, hb, hk⟩
  · cases h
  · simp only [no_key_in, List.all_eq_true, decide_eq_true_eq]
    intro hforall
    exact hforall b hb hk

/-- `INSERT OR REPLACE` preserves key uniqueness of the table. -/
theorem insert_or_replace_unique {table : List Row} (r : Row)
    (h : table.Pairwise (fun a b => a.key ≠ b.key)) :
    (insert_or_replace table r).Pairwise (fun a b => a.key ≠ b.key) := by
  rw [insert_or_replace, List.pairwise_append]
  refine ⟨h.filter _, List.pairwise_singleton _ _, ?_⟩
  intro a ha b hb
  rcases List.mem_singleton.mp hb with rfl
  have := List.of_mem_filter ha
  exact of_decide_eq_true this

/-- Batch writes preserve key uniqueness of the table. -/
theorem write_all_unique :
    ∀ (rows table : List Row), table.Pairwise (fun a b => a.key ≠ b.key) →
      (write_all table rows).Pairwise (fun a b => a.key ≠ b.key) := by
  intro rows
  induction rows with
  | nil => intro table h; exact h
  | cons r rows ih =>
    intro table h
    exact ih (insert_or_replace table r) (insert_or_replace_unique r h)

/-- Writing the same batch twice leaves exactly the table a single write
leaves. -/
theorem write_all_idem (table rows : List Row) :
    write_all (write_all table rows) rows = write_all table rows := by
  rw [write_all_canonical rows (write_all table rows),
    write_all_canonical rows table, List.filter_append, filter_write_all_self,
    List.append_nil]
  congr 1
  rw [List.filter_filter]
  exact List.filter_congr (fun row _ => by rw [Bool.and_self])

/-- C9: `_save_to_cache` has upsert semantics under the schema's UNIQUE
`(symbol, data_type, data_source, trade_date)` key — writing the same bar
list twice with identical key parameters leaves exactly the rows a single
write leaves (the second write replaces rather than duplicates), and the
per-key uniqueness invariant of the table is preserved by every write. -/
theorem claim_C9_write_idempotent :
    (∀ (table : List Row) (symbol data_type data_source : ℕ) (bars : List Bar),
      save_to_cache (save_to_cache table symbol data_type data_source bars)
          symbol data_type data_source bars
        = save_to_cache table symbol data_type data_source bars) ∧
    (∀ (table : List Row) (symbol data_type data_source : ℕ) (bars : List Bar),
      table.Pairwise (fun a b => a.key ≠ b.key) →
      (save_to_cache table symbol data_type data_source bars).Pairwise
        (fun a b => a.key ≠ b.key)) := by
  constructor
  · intro table symbol data_type data_source bars
    exact write_all_idem table (bars.map (mk_row symbol data_type data_source))
  · intro table symbol data_type data_source bars h
    exact write_all_unique (bars.map (mk_row symbol data_type data_source)) table h

/-- Witness for C9: writing one bar into the empty (trivially key-unique)
table keeps the table key-unique. -/
theorem claim_C9_witness :
    (save_to_cache [] 0 0 0 [⟨1, 2, 3, 4, 5, 6, 7⟩]).Pairwise
      (fun a b => a.key ≠ b.key) :=
  claim_C9_write_idempotent.2 [] 0 0 0 [⟨1, 2, 3, 4, 5, 6, 7⟩] (List.Pairwise.nil)

/-- Proof infrastructure for C2: the running cumulative-PnL values of a
daily-result list, starting from a given cumulative total. -/
def cumsums (cum : ℚ) : List DailyResult → List ℚ
  | [] => []
  | r :: rest => (cum + r.net_pnl) :: cumsums (cum + r.net_pnl) rest

/-- Proof infrastructure for C2: the `(max_capital, max_drawdown)` transition
of one `_process_daily_results` iteration, as a function of the new equity
point. -/
def dd_step (s : ℚ × ℚ) (a : ℚ) : ℚ × ℚ :=
  if s.1 < a then (a, s.2) else (s.1, max s.2 ((s.1 - a) / s.1 * 100))

/-- Proof infrastructure for C2: the `(current_max, min drawdown)` transition
of one `_calculate_max_drawdown` scan step. -/
def mn_step (s : ℚ × ℚ) (a : ℚ) : ℚ × ℚ :=
  let m := if s.1 < a then a else s.1
  (m, min s.2 ((a - m) / m))

/-- Proof infrastructure for C2: the `max_drawdown` field of the last record,
defaulting to the given initial value for an empty list. -/
def last_md (init : ℚ) (recs : List DailyRec) : ℚ :=
  recs.foldl (fun _ r => r.max_drawdown) init

/-- Total version of `process_step`, used in proofs: identical computation
with plain field division.  It agrees with `process_step` whenever no
divisor vanishes (`process_step_eq_pure`). -/
def pure_step (initial_capital : ℚ) (st : ProcState) (net_pnl : ℚ) : DailyRec × ProcState :=
  let cumulative_pnl := st.cumulative_pnl + net_pnl
  let current_capital := initial_capital + cumulative_pnl
  let dd : ℚ × ℚ × ℚ :=
    if st.max_capital < current_capital then
      (current_capital, 0, st.max_drawdown)
    else
      (st.max_capital, (st.max_capital - current_capital) / st.max_capital * 100,
        max st.max_drawdown ((st.max_capital - current_capital) / st.max_capital * 100))
  let win_count := if PROFIT_THRESHOLD < net_pnl then st.win_count + 1 else st.win_count
  let loss_count := if net_pnl < LOSS_THRESHOLD then st.loss_count + 1 else st.loss_count
  let win_loss_ratio : ℚ :=
    if 0 < loss_count then (win_count : ℚ) / (loss_count : ℚ)
    else if 0 < win_count then (win_count : ℚ) else 0
  (⟨net_pnl, cumulative_pnl, cumulative_pnl / initial_capital * 100, win_loss_ratio,
    dd.2.1, dd.2.2⟩,
   ⟨cumulative_pnl, win_count, loss_count, dd.1, dd.2.1, dd.2.2⟩)

/-- Total version of `process_go`, used in proofs. -/
def pure_go (initial_capital : ℚ) (st : ProcState) : List DailyResult → List DailyRec
  | [] => []
  | r :: rest =>
    (pure_step initial_capital st r.net_pnl).1 ::
      pure_go initial_capital (pure_step initial_capital st r.net_pnl).2 rest

/-- With a non-zero capital and a non-zero running maximum, `process_step`
raises no division error and agrees with its total version. -/
theorem process_step_eq_pure (C : ℚ) (st : ProcState) (net : ℚ)
    (hC : C ≠ 0) (hmc : st.max_capital ≠ 0) :
    process_step C st net = some (pure_step C st net) := by
  unfold process_step pure_step qdiv
  by_cases hlt : st.max_capital < C + (st.cumulative_pnl + net)
  · simp [hlt, hC]
  · simp [hlt, hC, hmc]

/-- The running maximum of the loop state stays positive. -/
theorem pure_step_max_capital_pos (C : ℚ) (st : ProcState) (net : ℚ)
    (h : 0 < st.max_capital) : 0 < (pure_step C st net).2.max_capital := by
  unfold pure_step
  by_cases hlt : st.max_capital < C + (st.cumulative_pnl + net)
  · simpa [hlt] using lt_trans h hlt
  · simpa [hlt] using h

/-- The cumulative total of the next loop state. -/
theorem pure_step_cumulative (C : ℚ) (st : ProcState) (net : ℚ) :
    (pure_step C st net).2.cumulative_pnl = st.cumulative_pnl + net := rfl

/-- The `total_pnl` of the emitted record. -/
theorem pure_step_total_pnl (C : ℚ) (st : ProcState) (net : ℚ) :
    (pure_step C st net).1.total_pnl = st.cumulative_pnl + net := rfl

/-- The emitted record's `max_drawdown` equals the next state's. -/
theorem pure_step_rec_md (C : ℚ) (st : ProcState) (net : ℚ) :
    (pure_step C st net).1.max_drawdown = (pure_step C st net).2.max_drawdown := rfl

/-- The `(max_capital, max_drawdown)` component of one loop iteration is
exactly `dd_step` applied at the new equity point. -/
theorem pure_step_dd (C : ℚ) (st : ProcState) (net : ℚ) :
    ((pure_step C st net).2.max_capital, (pure_step C st net).2.max_drawdown)
      = dd_step (st.max_capital, st.max_drawdown) (C + (st.cumulative_pnl + net)) := by
  unfold pure_step dd_step
  by_cases hlt : st.max_capital < C + (st.cumulative_pnl + net)
  · simp [hlt]
  · simp [hlt]

/-- With a non-zero capital and a positive initial running maximum, the daily
loop raises no error and agrees with its total version. -/
theorem process_go_eq_pure (C : ℚ) (hC : C ≠ 0) :
    ∀ (l : List DailyResult) (st : ProcState), 0 < st.max_capital →
      process_go C st l = some (pure_go C st l) := by
  intro l
  induction l with
  | nil => intro st _; rfl
  | cons r rest ih =>
    intro st h
    have hrec := ih (pure_step C st r.net_pnl).2 (pure_step_max_capital_pos C st r.net_pnl h)
    rw [process_go, process_step_eq_pure C st r.net_pnl hC (ne_of_gt h)]
    show (match process_go C (pure_step C st r.net_pnl).2 rest with
          | none => none
          | some recs => some ((pure_step C st r.net_pnl).1 :: recs))
        = some (pure_go C st (r :: rest))
    rw [hrec]
    rfl

/-- The `total_pnl` column of the processed records is the cumulative-sum
sequence of the input `net_pnl` values. -/
theorem pure_go_total_pnl (C : ℚ) :
    ∀ (l : List DailyResult) (st : ProcState),
      (pure_go C st l).map (fun r => r.total_pnl) = cumsums st.cumulative_pnl l := by
  intro l
  induction l with
  | nil => intro st; rfl
  | cons r rest ih =>
    intro st
    rw [pure_go, List.map_cons, cumsums, pure_step_total_pnl]
    rw [ih (pure_step C st r.net_pnl).2, pure_step_cumulative]

/-- The last `max_drawdown` of the processed records is the second component
of the `dd_step` fold over the equity curve. -/
theorem pure_go_last_md (C : ℚ) :
    ∀ (l : List DailyResult) (st : ProcState),
      last_md st.max_drawdown (pure_go C st l)
        = (List.foldl dd_step (st.max_capital, st.max_drawdown)
            ((cumsums st.cumulative_pnl l).map (fun c => C + c))).2 := by
  intro l
  induction l with
  | nil => intro st; rfl
  | cons r rest ih =>
    intro st
    rw [pure_go, cumsums, List.map_cons, List.foldl_cons]
    have hhead : last_md st.max_drawdown
        ((pure_step C st r.net_pnl).1 :: pure_go C (pure_step C st r.net_pnl).2 rest)
          = last_md (pure_step C st r.net_pnl).2.max_drawdown
              (pure_go C (pure_step C st r.net_pnl).2 rest) := by
      rw [last_md, List.foldl_cons, pure_step_rec_md]
      rfl
    rw [hhead, ih (pure_step C st r.net_pnl).2, pure_step_cumulative]
    have hdd : dd_step (st.max_capital, st.max_drawdown) (C + (st.cumulative_pnl + r.net_pnl))
        = ((pure_step C st r.net_pnl).2.max_capital,
           (pure_step C st r.net_pnl).2.max_drawdown) :=
      (pure_step_dd C st r.net_pnl).symm
    rw [hdd]

/-- Bridge between the two drawdown folds: starting from matching states
(positive running maximum, nonpositive minimal relative drawdown), the
`_process_daily_results` fold carries `-t * 100` exactly where the scan fold
carries `t`, and the invariants persist. -/
theorem dd_mn_fold :
    ∀ (as : List ℚ) (s t : ℚ), 0 < s → t ≤ 0 →
      List.foldl dd_step (s, -t * 100) as
          = ((List.foldl mn_step (s, t) as).1, -(List.foldl mn_step (s, t) as).2 * 100) ∧
        0 < (List.foldl mn_step (s, t) as).1 ∧ (List.foldl mn_step (s, t) as).2 ≤ 0 := by
  intro as
  induction as with
  | nil => intro s t hs ht; exact ⟨rfl, hs, ht⟩
  | cons a as ih =>
    intro s t hs ht
    rw [List.foldl_cons, List.foldl_cons]
    by_cases hlt : s < a
    · have hstep_mn : mn_step (s, t) a = (a, t) := by
        simp [mn_step, hlt, min_eq_left ht]
      have hstep_dd : dd_step (s, -t * 100) a = (a, -t * 100) := by
        simp [dd_step, hlt]
      rw [hstep_mn, hstep_dd]
      exact ih a t (lt_trans hs hlt) ht
    · have hv : (a - s) / s ≤ 0 :=
        div_nonpos_of_nonpos_of_nonneg (sub_nonpos.mpr (not_lt.mp hlt)) (le_of_lt hs)
      have hkey : max (-t * 100) (-((a - s) / s) * 100) = -(min t ((a - s) / s)) * 100 := by
        rcases le_total t ((a - s) / s) with hcmp | hcmp
        · rw [min_eq_left hcmp, max_eq_left
            (mul_le_mul_of_nonneg_right (neg_le_neg hcmp) (by norm_num))]
        · rw [min_eq_right hcmp, max_eq_right
            (mul_le_mul_of_nonneg_right (neg_le_neg hcmp) (by norm_num))]
      have hstep_mn : mn_step (s, t) a = (s, min t ((a - s) / s)) := by
        simp [mn_step, hlt]
      have hstep_dd : dd_step (s, -t * 100) a = (s, -(min t ((a - s) / s)) * 100) := by
        rw [dd_step]
        simp only [if_neg hlt]
        rw [show (s - a) / s = -((a - s) / s) by rw [← neg_div, neg_sub], hkey]
      rw [hstep_mn, hstep_dd]
      exact ih s (min t ((a - s) / s)) hs (le_trans (min_le_left t _) ht)

/-- The scan's drawdown list exists (no division error) whenever the seed of
the running maximum is positive, and folding `min` over it computes the
`mn_step` fold. -/
theorem drawdowns_spec :
    ∀ (as : List ℚ) (cur : ℚ), 0 < cur →
      ∃ ds, drawdowns_of (as.zip (running_max as cur)) = some ds ∧
        ∀ mn : ℚ, ds.foldl min mn = (List.foldl mn_step (cur, mn) as).2 := by
  intro as
  induction as with
  | nil => intro cur _; exact ⟨[], rfl, fun _ => rfl⟩
  | cons a as ih =>
    intro cur hcur
    have hm : 0 < (if cur < a then a else cur) := by
      by_cases hlt : cur < a
      · simpa [hlt] using lt_trans hcur hlt
      · simpa [hlt] using hcur
    obtain ⟨ds, hds, hfold⟩ := ih (if cur < a then a else cur) hm
    refine ⟨((a - (if cur < a then a else cur)) / (if cur < a then a else cur)) :: ds, ?_, ?_⟩
    · rw [running_max]
      show drawdowns_of ((a, if cur < a then a else cur) ::
        as.zip (running_max as (if cur < a then a else cur))) = _
      rw [drawdowns_of, qdiv, if_neg (ne_of_gt hm), hds]
    · intro mn
      rw [List.foldl_cons, List.foldl_cons, hfold (min mn ((a - (if cur < a then a else cur)) /
        (if cur < a then a else cur)))]
      rfl

/-- The running-maximum list seeded with the head of the scanned list starts
with that head. -/
theorem running_max_cons_self (a : ℚ) (as : List ℚ) :
    running_max (a :: as) a = a :: running_max as a := by
  rw [running_max]
  simp

/-- Closed form of the scan: for a non-empty processed list whose first
equity point is positive, `_calculate_max_drawdown` returns the absolute
value of `100` times the minimal relative drawdown computed by the
`mn_step` fold over the remaining equity points. -/
theorem calc_md_spec (C : ℚ) (r0 : DailyRec) (rest : List DailyRec)
    (h0 : 0 < C + r0.total_pnl) :
    calculate_max_drawdown (r0 :: rest) C
      = some |(List.foldl mn_step (C + r0.total_pnl, 0)
          (rest.map (fun d => C + d.total_pnl))).2 * 100| := by
  obtain ⟨ds, hds, hfold⟩ :=
    drawdowns_spec (rest.map (fun d => C + d.total_pnl)) (C + r0.total_pnl) h0
  have hne : C + r0.total_pnl ≠ 0 := ne_of_gt h0
  simp only [List.zip] at hds
  simp only [calculate_max_drawdown, List.map_cons, running_max, lt_self_iff_false, if_false,
    List.zip_cons_cons, drawdowns_of, qdiv, hne, sub_self, zero_div, hds]
  rw [show list_min 0 ds = (List.foldl mn_step (C + r0.total_pnl, 0)
    (rest.map (fun d => C + d.total_pnl))).2 from hfold 0]

/-- `last_md` reads the `max_drawdown` of the last record when one exists. -/
theorem last_md_of_getLast :
    ∀ (recs : List DailyRec) (lr : DailyRec), recs.getLast? = some lr →
      ∀ i : ℚ, last_md i recs = lr.max_drawdown := by
  intro recs
  induction recs with
  | nil => intro lr h i; cases h
  | cons r rs ih =>
    intro lr h i
    cases rs with
    | nil =>
      have hr : r = lr := by simpa using h
      rw [← hr]
      rfl
    | cons r2 rs2 =>
      have h2 : (r2 :: rs2).getLast? = some lr := by
        simpa [List.getLast?_cons_cons] using h
      have hstep : last_md i (r :: r2 :: rs2) = last_md r.max_drawdown (r2 :: rs2) := rfl
      rw [hstep, ih lr h2 r.max_drawdown]

/-- C2 (amended): over exact rational arithmetic, for every non-empty
daily-results list and `initial_capital > 0`, the `max_drawdown` of the
independent full-equity-curve scan equals the per-step `max_drawdown` of the
last derived record PROVIDED the first day's `net_pnl` is non-negative (then
the scan's seed — the first equity point — is at least the initial capital,
so both computations track the same running maximum).  With a negative first
day the per-step value measures the dip below `initial_capital` while the
scan starts at the already-lowered first equity point, and the two differ
(see the counterexample). -/
theorem claim_C2_scan_matches_last_record :
    ∀ (r0 : DailyResult) (rest : List DailyResult) (C : ℚ) (recs : List DailyRec)
      (lastRec : DailyRec),
      0 < C → 0 ≤ r0.net_pnl →
      process_daily_results (r0 :: rest) C = some recs →
      recs.getLast? = some lastRec →
      calculate_max_drawdown recs C = some lastRec.max_drawdown := by
  intro r0 rest C recs lastRec hC h0 hproc hlast
  have hpg := process_go_eq_pure C (ne_of_gt hC) (r0 :: rest) ⟨0, 0, 0, C, 0, 0⟩ hC
  rw [process_daily_results, hpg] at hproc
  have hrecs : recs = pure_go C ⟨0, 0, 0, C, 0, 0⟩ (r0 :: rest) := (Option.some.inj hproc).symm
  subst hrecs
  have hstep1 : pure_go C ⟨0, 0, 0, C, 0, 0⟩ (r0 :: rest)
      = (pure_step C ⟨0, 0, 0, C, 0, 0⟩ r0.net_pnl).1 ::
          pure_go C (pure_step C ⟨0, 0, 0, C, 0, 0⟩ r0.net_pnl).2 rest := rfl
  have htp0 : (pure_step C ⟨0, 0, 0, C, 0, 0⟩ r0.net_pnl).1.total_pnl = 0 + r0.net_pnl := rfl
  have ha0pos : 0 < C + (0 + r0.net_pnl) := by linarith
  have hmap : (pure_go C (pure_step C ⟨0, 0, 0, C, 0, 0⟩ r0.net_pnl).2 rest).map
        (fun d => C + d.total_pnl)
      = (cumsums (0 + r0.net_pnl) rest).map (fun c => C + c) := by
    have h1 := pure_go_total_pnl C rest (pure_step C ⟨0, 0, 0, C, 0, 0⟩ r0.net_pnl).2
    rw [show (pure_go C (pure_step C ⟨0, 0, 0, C, 0, 0⟩ r0.net_pnl).2 rest).map
          (fun d => C + d.total_pnl)
        = ((pure_go C (pure_step C ⟨0, 0, 0, C, 0, 0⟩ r0.net_pnl).2 rest).map
            (fun r => r.total_pnl)).map (fun c => C + c) from by rw [List.map_map]; rfl]
    rw [h1]
    rfl
  have hlmd2 : last_md 0 (pure_go C ⟨0, 0, 0, C, 0, 0⟩ (r0 :: rest))
      = (List.foldl dd_step (C, 0) ((C + (0 + r0.net_pnl)) ::
          (cumsums (0 + r0.net_pnl) rest).map (fun c => C + c))).2 :=
    pure_go_last_md C (r0 :: rest) ⟨0, 0, 0, C, 0, 0⟩
  have hdd0 : dd_step (C, 0) (C + (0 + r0.net_pnl)) = (C + (0 + r0.net_pnl), 0) := by
    rcases lt_or_eq_of_le (by linarith : C ≤ C + (0 + r0.net_pnl)) with hlt | heq
    · rw [dd_step, if_pos (show (C, (0 : ℚ)).1 < C + (0 + r0.net_pnl) from hlt)]
    · rw [← heq]
      simp [dd_step]
  have hfoldcons : List.foldl dd_step (C, 0) ((C + (0 + r0.net_pnl)) ::
        (cumsums (0 + r0.net_pnl) rest).map (fun c => C + c))
      = List.foldl dd_step (C + (0 + r0.net_pnl), 0)
          ((cumsums (0 + r0.net_pnl) rest).map (fun c => C + c)) := by
    rw [List.foldl_cons, hdd0]
  obtain ⟨hbr, hMpos, htneg⟩ :=
    dd_mn_fold ((cumsums (0 + r0.net_pnl) rest).map (fun c => C + c))
      (C + (0 + r0.net_pnl)) 0 ha0pos le_rfl
  rw [show (-(0 : ℚ) * 100) = 0 by norm_num] at hbr
  have hscan := calc_md_spec C (pure_step C ⟨0, 0, 0, C, 0, 0⟩ r0.net_pnl).1
      (pure_go C (pure_step C ⟨0, 0, 0, C, 0, 0⟩ r0.net_pnl).2 rest)
      (by rw [htp0]; exact ha0pos)
  rw [htp0, hmap] at hscan
  have ht2 : (List.foldl mn_step (C + (0 + r0.net_pnl), 0)
      ((cumsums (0 + r0.net_pnl) rest).map (fun c => C + c))).2 * 100 ≤ 0 := by
    nlinarith [htneg]
  have habs : |(List.foldl mn_step (C + (0 + r0.net_pnl), 0)
        ((cumsums (0 + r0.net_pnl) rest).map (fun c => C + c))).2 * 100|
      = -(List.foldl mn_step (C + (0 + r0.net_pnl), 0)
          ((cumsums (0 + r0.net_pnl) rest).map (fun c => C + c))).2 * 100 := by
    rw [abs_of_nonpos ht2, neg_mul]
  have hdd2 : (List.foldl dd_step (C + (0 + r0.net_pnl), 0)
        ((cumsums (0 + r0.net_pnl) rest).map (fun c => C + c))).2
      = -(List.foldl mn_step (C + (0 + r0.net_pnl), 0)
          ((cumsums (0 + r0.net_pnl) rest).map (fun c => C + c))).2 * 100 := by
    rw [hbr]
  have hlastmd : lastRec.max_drawdown
      = last_md 0 (pure_go C ⟨0, 0, 0, C, 0, 0⟩ (r0 :: rest)) :=
    (last_md_of_getLast _ lastRec hlast 0).symm
  rw [hstep1, hscan, habs, hlastmd, hlmd2, hfoldcons, hdd2]

/-- C2 counterexample: with `initial_capital = 100` and the single daily
result `net_pnl = -10`, the per-step computation records a `max_drawdown` of
`10` (the dip below the initial capital) while the independent full-scan
returns `0` (its running maximum starts at the already-lowered first equity
point `90`), so the two computations differ over exact arithmetic. -/
theorem claim_C2_counterexample :
    process_daily_results [⟨-10⟩] 100 = some [⟨-10, -10, -10, 0, 10, 10⟩] ∧
      calculate_max_drawdown [⟨-10, -10, -10, 0, 10, 10⟩] 100 = some 0 ∧
      (0 : ℚ) ≠ 10 := by
  refine ⟨?_, ?_, by norm_num⟩
  · norm_num [process_daily_results, process_go, process_step, qdiv,
      PROFIT_THRESHOLD, LOSS_THRESHOLD]
  · norm_num [calculate_max_drawdown, running_max, drawdowns_of, qdiv, list_min]

/-- Witness for C2: for the one-day series `net_pnl = 0` with capital `1`,
both computations give `0`. -/
theorem claim_C2_witness :
    calculate_max_drawdown [⟨0, 0, 0, 0, 0, 0⟩] 1
      = some ((⟨0, 0, 0, 0, 0, 0⟩ : DailyRec).max_drawdown) :=
  claim_C2_scan_matches_last_record ⟨0⟩ [] 1 [⟨0, 0, 0, 0, 0, 0⟩] ⟨0, 0, 0, 0, 0, 0⟩
    (by norm_num) (le_refl 0)
    (by norm_num [process_daily_results, process_go, process_step, qdiv,
      PROFIT_THRESHOLD, LOSS_THRESHOLD])
    rfl
